import Mathlib

/-!
Verification of `gen_triglut_coe.py`: a tool that precomputes a Q9.7
fixed-point trigonometric lookup table (sin, cos, tan, cot at 1024 equally
spaced angles) and serializes it into a COE memory-initialization text file.

Shallow embedding conventions:
* Python floats are modelled by exact field values; the encoder
  `to_fixed_point` is defined generically over a `LinearOrderedField` with a
  `FloorRing` instance, so it is computable at `ℚ` and usable at `ℝ`.
  Python's built-in `round` rounds half to even, which `roundHalfEven`
  models exactly (multiplication by the scale 2^7 is exact in binary
  floating point, so for any float input the model agrees with the code).
* The table builder uses exact real trigonometric functions where the code
  uses their floating-point approximations.
* File output is modelled as the list of lines written, each line a
  `String` without its trailing newline.
-/

open Real

/-- Python's built-in `round` on a real value: round to the nearest integer,
ties going to the even integer. -/
def roundHalfEven {α : Type*} [LinearOrderedField α] [FloorRing α] (x : α) : ℤ :=
  if x - (⌊x⌋ : α) < 1 / 2 then ⌊x⌋
  else if 1 / 2 < x - (⌊x⌋ : α) then ⌊x⌋ + 1
  else if ⌊x⌋ % 2 = 0 then ⌊x⌋ else ⌊x⌋ + 1

/-- Round half away from zero: the alternative rounding mode named by the
spec, used to settle which mode the code implements. -/
def roundHalfAwayFromZero {α : Type*} [LinearOrderedField α] [FloorRing α] (x : α) : ℤ :=
  if 0 ≤ x then ⌊x + 1 / 2⌋ else -⌊-x + 1 / 2⌋

/-- The encoder `to_fixed_point(value, frac_bits)` from the source: scale by `2^frac_bits`,
round with Python's `round`, then clamp into the signed 16-bit range. -/
def to_fixed_point {α : Type*} [LinearOrderedField α] [FloorRing α]
    (value : α) (frac_bits : ℕ) : ℤ :=
  if roundHalfEven (value * 2 ^ frac_bits) > 32767 then 32767
  else if roundHalfEven (value * 2 ^ frac_bits) < -32768 then -32768
  else roundHalfEven (value * 2 ^ frac_bits)

/-- One lowercase hexadecimal digit character, as produced by Python's
`x` format code. -/
def hexDigitChar (d : ℕ) : Char :=
  match d with
  | 0 => '0' | 1 => '1' | 2 => '2' | 3 => '3'
  | 4 => '4' | 5 => '5' | 6 => '6' | 7 => '7'
  | 8 => '8' | 9 => '9' | 10 => 'a' | 11 => 'b'
  | 12 => 'c' | 13 => 'd' | 14 => 'e' | _ => 'f'

/-- Fuel-driven most-significant-digit-first hexadecimal digit expansion. -/
def hexDigitsCore : ℕ → ℕ → List Char → List Char
  | 0, _, acc => acc
  | fuel + 1, n, acc =>
    if n < 16 then hexDigitChar n :: acc
    else hexDigitsCore fuel (n / 16) (hexDigitChar (n % 16) :: acc)

/-- The lowercase hexadecimal digits of `n`, most significant first, with no
leading zeros (`0` renders as `"0"`). -/
def hexDigits (n : ℕ) : List Char := hexDigitsCore (n + 1) n []

/-- Python's 04x string format for a nonnegative integer: lowercase hexadecimal,
zero-padded on the left to a minimum width of 4. -/
def pyHex04 (n : ℕ) : String :=
  ⟨List.replicate (4 - (hexDigits n).length) '0' ++ hexDigits n⟩

/-- The companion operation `to_unsigned_hex(value)` from the source: add `1 <<< 16` to a negative
value, then format with the 04x format code. -/
def to_unsigned_hex (value : ℤ) : String :=
  pyHex04 (if value < 0 then (2 ^ 16 + value).toNat else value.toNat)

/-- The six lines `write_combined_coe_file` writes before any data: four
comment lines, the radix declaration and the vector-start marker. -/
def coeHeader : List String :=
  ["; Combined TrigLUT lookup table",
   "; 1024 entries, 64-bit values",
   "; Format: [sin(15:0), cos(15:0), tan(15:0), cot(15:0)]",
   "; Each value is Q9.7 signed fixed-point (16 bits)",
   "memory_initialization_radix=16;",
   "memory_initialization_vector="]

/-- The merged record for index `i` (the loop's `combined` value): the four
hex renderings concatenated in the order sin, cos, tan, cot. -/
def coeRecord (sin_table cos_table tan_table cot_table : List ℤ) (i : ℕ) : String :=
  to_unsigned_hex (sin_table.getD i 0) ++ to_unsigned_hex (cos_table.getD i 0) ++
  to_unsigned_hex (tan_table.getD i 0) ++ to_unsigned_hex (cot_table.getD i 0)

/-- The lines of the file produced by `write_combined_coe_file` from the
source: six fixed header lines, then one merged record per index of
`sin_table`, each record the sin/cos/tan/cot hex renderings concatenated,
comma-terminated except the last record which is semicolon-terminated.
The code indexes the other three tables with the same index `i`; the model
reads them with `List.getD`, which agrees whenever the four tables have
equal length (as they do for the program's input). -/
def write_combined_coe_file (sin_table cos_table tan_table cot_table : List ℤ) :
    List String :=
  coeHeader ++
  (List.range sin_table.length).map (fun i =>
    if i = sin_table.length - 1 then
      coeRecord sin_table cos_table tan_table cot_table i ++ ";"
    else coeRecord sin_table cos_table tan_table cot_table i ++ ",")

/-- The radian angle for index `i`: `i * (2π / 1024)`. -/
noncomputable def angle (i : ℕ) : ℝ := (i : ℝ) * (2 * π / 1024)

/-- The sin table entry for index `i` (loop body of `generate_trig_lut`). -/
noncomputable def sinEntry (i : ℕ) : ℤ := to_fixed_point (Real.sin (angle i)) 7

/-- The cos table entry for index `i` (loop body of `generate_trig_lut`). -/
noncomputable def cosEntry (i : ℕ) : ℤ := to_fixed_point (Real.cos (angle i)) 7

/-- The tan table entry for index `i` (loop body of `generate_trig_lut`):
special cases at indices 256/768 and 0/512, otherwise a ±255.0 pre-clamp
around the encoder. -/
noncomputable def tanEntry (i : ℕ) : ℤ :=
  if i = 256 ∨ i = 768 then (if i = 256 then 32767 else -32768)
  else if i = 0 ∨ i = 512 then 0
  else if Real.tan (angle i) > 255 then 32767
  else if Real.tan (angle i) < -255 then -32768
  else to_fixed_point (Real.tan (angle i)) 7

/-- The cot table entry for index `i` (loop body of `generate_trig_lut`):
special cases at indices 256/768 and 0/512; a near-zero tangent sends cot to
an extreme chosen by the sign of cos; otherwise `1 / tan` with the same
±255.0 pre-clamp around the encoder. -/
noncomputable def cotEntry (i : ℕ) : ℤ :=
  if i = 256 ∨ i = 768 then 0
  else if i = 0 ∨ i = 512 then (if i = 0 then 32767 else -32768)
  else if |Real.tan (angle i)| < 1 / 1000000 then
    (if Real.cos (angle i) > 0 then 32767 else -32768)
  else if 1 / Real.tan (angle i) > 255 then 32767
  else if 1 / Real.tan (angle i) < -255 then -32768
  else to_fixed_point (1 / Real.tan (angle i)) 7

/-- The table builder `generate_trig_lut()` from the source: the four parallel tables built by
one pass over the 1024 angle indices, appending one entry per table per
iteration. -/
noncomputable def generate_trig_lut : List ℤ × List ℤ × List ℤ × List ℤ :=
  ((List.range 1024).map sinEntry,
   (List.range 1024).map cosEntry,
   (List.range 1024).map tanEntry,
   (List.range 1024).map cotEntry)

/-- The lines of `triglut.coe` as written by the program's main entry point. -/
noncomputable def coeFile : List String :=
  write_combined_coe_file generate_trig_lut.1 generate_trig_lut.2.1
    generate_trig_lut.2.2.1 generate_trig_lut.2.2.2

section RoundLemmas

variable {α : Type*} [LinearOrderedField α] [FloorRing α]

/-- Rounding is the identity on integers. -/
lemma roundHalfEven_intCast (n : ℤ) : roundHalfEven ((n : α)) = n := by
  unfold roundHalfEven
  rw [Int.floor_intCast]
  simp

/-- Evaluation lemma: a value at least `n` but short of the half-way point
rounds down to `n`. -/
lemma roundHalfEven_eq_low {x : α} {n : ℤ} (h1 : (n : α) ≤ x)
    (h2 : x < (n : α) + 1 / 2) : roundHalfEven x = n := by
  have hfl : ⌊x⌋ = n := by
    apply Int.floor_eq_iff.mpr
    constructor
    · exact h1
    · have : (n : α) + 1 / 2 < n + 1 := by norm_num
      linarith
  unfold roundHalfEven
  rw [hfl]
  have hc : x - (n : α) < 1 / 2 := by linarith
  rw [if_pos hc]

/-- Evaluation lemma: a value past the half-way point rounds up to `n + 1`. -/
lemma roundHalfEven_eq_high {x : α} {n : ℤ} (h1 : (n : α) + 1 / 2 < x)
    (h2 : x < (n : α) + 1) : roundHalfEven x = n + 1 := by
  have hfl : ⌊x⌋ = n := by
    apply Int.floor_eq_iff.mpr
    refine ⟨by linarith, by exact_mod_cast h2⟩
  unfold roundHalfEven
  rw [hfl]
  have hlt : ¬(x - (n : α) < 1 / 2) := by
    push_neg
    linarith
  have hgt : 1 / 2 < x - (n : α) := by linarith
  rw [if_neg hlt, if_pos hgt]

/-- Rounding never moves down past the floor. -/
lemma floor_le_roundHalfEven (x : α) : ⌊x⌋ ≤ roundHalfEven x := by
  unfold roundHalfEven
  split
  · exact le_refl _
  · split
    · omega
    · split <;> omega

/-- Rounding never moves up past the floor plus one. -/
lemma roundHalfEven_le_floor_add_one (x : α) : roundHalfEven x ≤ ⌊x⌋ + 1 := by
  unfold roundHalfEven
  split
  · omega
  · split
    · omega
    · split <;> omega

/-- An integer upper bound on the argument bounds the rounded value. -/
lemma roundHalfEven_le_of_le {x : α} {n : ℤ} (h : x ≤ (n : α)) :
    roundHalfEven x ≤ n := by
  have hfl : ⌊x⌋ ≤ n := by
    calc ⌊x⌋ ≤ ⌊(n : α)⌋ := Int.floor_le_floor h
    _ = n := Int.floor_intCast n
  rcases eq_or_lt_of_le hfl with heq | hlt
  · have hx : x - (⌊x⌋ : α) ≤ 0 := by
      have hcast : ((⌊x⌋ : ℤ) : α) = (n : α) := by
        rw [heq]
      rw [hcast]
      linarith
    have hcond : x - (⌊x⌋ : α) < 1 / 2 := by linarith
    unfold roundHalfEven
    rw [if_pos hcond]
    omega
  · calc roundHalfEven x ≤ ⌊x⌋ + 1 := roundHalfEven_le_floor_add_one x
    _ ≤ n := by omega

/-- An integer lower bound on the argument bounds the rounded value. -/
lemma le_roundHalfEven_of_le {x : α} {n : ℤ} (h : (n : α) ≤ x) :
    n ≤ roundHalfEven x := by
  have hfl : n ≤ ⌊x⌋ := Int.le_floor.mpr h
  calc n ≤ ⌊x⌋ := hfl
  _ ≤ roundHalfEven x := floor_le_roundHalfEven x

/-- The rounding error of `roundHalfEven` is at most one half. -/
lemma abs_roundHalfEven_sub_le (x : α) : |(roundHalfEven x : α) - x| ≤ 1 / 2 := by
  have hle : (⌊x⌋ : α) ≤ x := Int.floor_le x
  have hlt : x < (⌊x⌋ : α) + 1 := Int.lt_floor_add_one x
  unfold roundHalfEven
  split
  · rw [abs_le]
    constructor <;> [skip; linarith]
    · rename_i hc
      linarith
  · rename_i hc
    push_neg at hc
    split
    · rename_i hc2
      rw [abs_le]
      push_cast
      constructor <;> linarith
    · rename_i hc2
      push_neg at hc2
      have heq : x - (⌊x⌋ : α) = 1 / 2 := le_antisymm hc2 hc
      split
      · rw [abs_le]
        constructor <;> linarith
      · rw [abs_le]
        push_cast
        constructor <;> linarith

/-- Unfolding `to_fixed_point` when the rounded value needs no clamping. -/
lemma to_fixed_point_eq_of_no_clamp {x : α} (f : ℕ)
    (h1 : -32768 ≤ roundHalfEven (x * 2 ^ f))
    (h2 : roundHalfEven (x * 2 ^ f) ≤ 32767) :
    to_fixed_point x f = roundHalfEven (x * 2 ^ f) := by
  unfold to_fixed_point
  have hn1 : ¬(roundHalfEven (x * 2 ^ f) > 32767) := by omega
  have hn2 : ¬(roundHalfEven (x * 2 ^ f) < -32768) := by omega
  rw [if_neg hn1, if_neg hn2]

/-- Evaluating `to_fixed_point` when the scaled value is an in-range integer. -/
lemma to_fixed_point_eq_intCast {x : α} {n : ℤ} (f : ℕ)
    (hx : x * 2 ^ f = (n : α)) (h1 : -32768 ≤ n) (h2 : n ≤ 32767) :
    to_fixed_point x f = n := by
  have hr : roundHalfEven (x * 2 ^ f) = n := by
    rw [hx]
    exact roundHalfEven_intCast n
  unfold to_fixed_point
  rw [hr]
  have hn1 : ¬(n > 32767) := by omega
  have hn2 : ¬(n < -32768) := by omega
  rw [if_neg hn1, if_neg hn2]

end RoundLemmas

section TieLemmas

variable {α : Type*} [LinearOrderedField α] [FloorRing α]

/-- Evaluation lemma: an exact half-way value with an even lower neighbour
rounds down. -/
lemma roundHalfEven_tie_even {x : α} {n : ℤ} (hx : x = (n : α) + 1 / 2)
    (he : n % 2 = 0) : roundHalfEven x = n := by
  have hfl : ⌊x⌋ = n := by
    apply Int.floor_eq_iff.mpr
    constructor
    · rw [hx]
      linarith
    · rw [hx]
      linarith
  unfold roundHalfEven
  rw [hfl]
  have hd : x - (n : α) = 1 / 2 := by
    rw [hx]
    ring
  have h1 : ¬(x - (n : α) < 1 / 2) := by
    rw [hd]
    exact lt_irrefl _
  have h2 : ¬(1 / 2 < x - (n : α)) := by
    rw [hd]
    exact lt_irrefl _
  rw [if_neg h1, if_neg h2, if_pos he]

end TieLemmas

/-- The fixed-point encoder as the spec's claim words it for the
round-half-even reading: round the scaled value, then clamp it into
[-32768, 32767]. -/
def encoderSpecHalfEven {α : Type*} [LinearOrderedField α] [FloorRing α]
    (value : α) (frac_bits : ℕ) : ℤ :=
  min 32767 (max (-32768) (roundHalfEven (value * 2 ^ frac_bits)))

/-- The fixed-point encoder as the spec's claim words it for the
round-half-away-from-zero reading: round the scaled value half away from
zero, then clamp it into [-32768, 32767]. -/
def encoderSpecHalfAway {α : Type*} [LinearOrderedField α] [FloorRing α]
    (value : α) (frac_bits : ℕ) : ℤ :=
  min 32767 (max (-32768) (roundHalfAwayFromZero (value * 2 ^ frac_bits)))

/-- C2 counterexample: at `v = 1/256` the code rounds the scaled value `0.5`
to `0` (half to even), while the claimed round-half-away-from-zero encoder
yields `1`. -/
theorem C2_counterexample :
    to_fixed_point ((1 : ℝ) / 256) 7 ≠ encoderSpecHalfAway ((1 : ℝ) / 256) 7 := by
  have hlhs : to_fixed_point ((1 : ℝ) / 256) 7 = 0 := by
    have hr : roundHalfEven ((1 : ℝ) / 256 * 2 ^ 7) = 0 := by
      apply roundHalfEven_tie_even (n := 0)
      · norm_num
      · norm_num
    rw [to_fixed_point_eq_of_no_clamp 7 (by rw [hr]; norm_num) (by rw [hr]; norm_num), hr]
  have hrhs : encoderSpecHalfAway ((1 : ℝ) / 256) 7 = 1 := by
    unfold encoderSpecHalfAway roundHalfAwayFromZero
    have harg : ((1 : ℝ) / 256 * 2 ^ 7) = 1 / 2 := by norm_num
    rw [harg, if_pos (by norm_num : (0 : ℝ) ≤ 1 / 2)]
    have : ((1 : ℝ) / 2 + 1 / 2) = 1 := by norm_num
    rw [this, Int.floor_one]
    norm_num
  rw [hlhs, hrhs]
  norm_num

/-- C2 (amended): for every real `v`, `to_fixed_point v 7` equals
`round(v × 128)` with round-half-to-even semantics clamped into
[-32768, 32767]; the encoder is a total function, so no error is raised. -/
theorem C2_encoder_refines_spec (v : ℝ) :
    to_fixed_point v 7 = encoderSpecHalfEven v 7 := by
  unfold to_fixed_point encoderSpecHalfEven
  split
  · rename_i h
    omega
  · rename_i h
    split
    · rename_i h2
      omega
    · rename_i h2
      omega

/-- C3: any real input at least 256.0 encodes to 32767, and any input at
most -256.5 encodes to -32768. -/
theorem C3_saturation (v : ℝ) :
    (256 ≤ v → to_fixed_point v 7 = 32767) ∧
    (v ≤ -256.5 → to_fixed_point v 7 = -32768) := by
  constructor
  · intro h
    have hmul : ((32768 : ℤ) : ℝ) ≤ v * 2 ^ 7 := by
      push_cast
      nlinarith
    have hr : (32768 : ℤ) ≤ roundHalfEven (v * 2 ^ 7) :=
      le_roundHalfEven_of_le hmul
    unfold to_fixed_point
    rw [if_pos (by omega)]
  · intro h
    have hmul : v * 2 ^ 7 ≤ ((-32832 : ℤ) : ℝ) := by
      push_cast
      nlinarith
    have hr : roundHalfEven (v * 2 ^ 7) ≤ -32832 :=
      roundHalfEven_le_of_le hmul
    unfold to_fixed_point
    rw [if_neg (by omega), if_pos (by omega)]

/-- C3 witness: the saturation theorem applied at the inputs 300 and -300. -/
theorem C3_saturation_witness :
    to_fixed_point (300 : ℝ) 7 = 32767 ∧ to_fixed_point (-300 : ℝ) 7 = -32768 :=
  ⟨(C3_saturation 300).1 (by norm_num), (C3_saturation (-300)).2 (by norm_num)⟩

/-- C7: whenever the encoded value lies strictly inside [-32768, 32767]
(so the clamp did not fire), decoding by dividing by 128 recovers the input
to within 0.5/128. -/
theorem C7_round_trip (v : ℝ) (h1 : -32768 < to_fixed_point v 7)
    (h2 : to_fixed_point v 7 < 32767) :
    |((to_fixed_point v 7 : ℤ) : ℝ) / 128 - v| ≤ 0.5 / 128 := by
  have hne : to_fixed_point v 7 = roundHalfEven (v * 2 ^ 7) := by
    unfold to_fixed_point at h1 h2 ⊢
    by_cases hc : roundHalfEven (v * 2 ^ 7) > 32767
    · rw [if_pos hc] at h2
      omega
    · rw [if_neg hc] at h1 h2 ⊢
      by_cases hc2 : roundHalfEven (v * 2 ^ 7) < -32768
      · rw [if_pos hc2] at h1
        omega
      · rw [if_neg hc2]
  have herr : |(roundHalfEven (v * 2 ^ 7) : ℝ) - v * 2 ^ 7| ≤ 1 / 2 :=
    abs_roundHalfEven_sub_le (v * 2 ^ 7)
  rw [hne]
  have hrw : ((roundHalfEven (v * 2 ^ 7) : ℤ) : ℝ) / 128 - v =
      (((roundHalfEven (v * 2 ^ 7) : ℤ) : ℝ) - v * 2 ^ 7) / 128 := by
    ring
  rw [hrw, abs_div]
  have h128 : |(128 : ℝ)| = 128 := by norm_num
  rw [h128]
  rw [show (0.5 : ℝ) / 128 = (1 / 2) / 128 by norm_num]
  exact div_le_div_of_nonneg_right herr (by norm_num) |>.trans_eq rfl

/-- C7 witness: the round-trip theorem applied at the input 0, whose
encoding is 0 and therefore strictly inside the clamp range. -/
theorem C7_round_trip_witness :
    -32768 < to_fixed_point (0 : ℝ) 7 ∧ to_fixed_point (0 : ℝ) 7 < 32767 ∧
    |((to_fixed_point (0 : ℝ) 7 : ℤ) : ℝ) / 128 - 0| ≤ 0.5 / 128 := by
  have h0 : to_fixed_point (0 : ℝ) 7 = 0 :=
    to_fixed_point_eq_intCast 7 (by norm_num) (by norm_num) (by norm_num)
  refine ⟨by rw [h0]; norm_num, by rw [h0]; norm_num, ?_⟩
  exact C7_round_trip 0 (by rw [h0]; norm_num) (by rw [h0]; norm_num)

/-- The fuel argument of `hexDigitsCore` is irrelevant as long as it covers
the number of digits of `n`. -/
lemma hexDigitsCore_congr (n : ℕ) : ∀ f1 f2 : ℕ, ∀ acc : List Char,
    n < 16 ^ f1 → n < 16 ^ f2 → 0 < f1 → 0 < f2 →
    hexDigitsCore f1 n acc = hexDigitsCore f2 n acc := by
  induction n using Nat.strong_induction_on with
  | _ n ih =>
    intro f1 f2 acc hb1 hb2 hp1 hp2
    obtain ⟨g1, rfl⟩ : ∃ g1, f1 = g1 + 1 := ⟨f1 - 1, by omega⟩
    obtain ⟨g2, rfl⟩ : ∃ g2, f2 = g2 + 1 := ⟨f2 - 1, by omega⟩
    by_cases hn : n < 16
    · simp [hexDigitsCore, hn]
    · have hg1 : 0 < g1 := by
        rcases Nat.eq_zero_or_pos g1 with h0 | h0
        · subst h0
          norm_num at hb1
          omega
        · exact h0
      have hg2 : 0 < g2 := by
        rcases Nat.eq_zero_or_pos g2 with h0 | h0
        · subst h0
          norm_num at hb2
          omega
        · exact h0
      have hlt : n / 16 < n := Nat.div_lt_self (by omega) (by norm_num)
      have hd1 : n / 16 < 16 ^ g1 := by
        rw [Nat.div_lt_iff_lt_mul (by norm_num : 0 < 16)]
        calc n < 16 ^ (g1 + 1) := hb1
        _ = 16 ^ g1 * 16 := by rw [pow_succ]
      have hd2 : n / 16 < 16 ^ g2 := by
        rw [Nat.div_lt_iff_lt_mul (by norm_num : 0 < 16)]
        calc n < 16 ^ (g2 + 1) := hb2
        _ = 16 ^ g2 * 16 := by rw [pow_succ]
      simp only [hexDigitsCore, if_neg hn]
      exact ih (n / 16) hlt g1 g2 _ hd1 hd2 hg1 hg2

/-- With fuel `f` covering `n < 16 ^ f`, `hexDigitsCore` emits at most `f`
digits on top of the accumulator. -/
lemma hexDigitsCore_length : ∀ f n : ℕ, ∀ acc : List Char, n < 16 ^ f →
    (hexDigitsCore f n acc).length ≤ f + acc.length := by
  intro f
  induction f with
  | zero =>
    intro n acc hb
    simp [hexDigitsCore]
  | succ g ih =>
    intro n acc hb
    by_cases hn : n < 16
    · simp [hexDigitsCore, hn]
      omega
    · simp only [hexDigitsCore, if_neg hn]
      have hd : n / 16 < 16 ^ g := by
        rw [Nat.div_lt_iff_lt_mul (by norm_num : 0 < 16)]
        calc n < 16 ^ (g + 1) := hb
        _ = 16 ^ g * 16 := by rw [pow_succ]
      calc (hexDigitsCore g (n / 16) (hexDigitChar (n % 16) :: acc)).length
          ≤ g + (hexDigitChar (n % 16) :: acc).length := ih (n / 16) _ hd
      _ = (g + 1) + acc.length := by simp [List.length_cons]; omega

/-- A value below 65536 has at most four hexadecimal digits. -/
lemma hexDigits_length_le {n : ℕ} (h : n < 65536) : (hexDigits n).length ≤ 4 := by
  have hfuel : n < 16 ^ (n + 1) := by
    calc n < 16 ^ n := Nat.lt_pow_self (by norm_num) n
    _ ≤ 16 ^ (n + 1) := Nat.pow_le_pow_right (by norm_num) (by omega)
  have h4 : n < 16 ^ 4 := by norm_num; omega
  unfold hexDigits
  rw [hexDigitsCore_congr n (n + 1) 4 [] hfuel h4 (by omega) (by norm_num)]
  calc (hexDigitsCore 4 n []).length ≤ 4 + ([] : List Char).length :=
    hexDigitsCore_length 4 n [] h4
  _ = 4 := by simp

/-- A value below 65536 renders under the 04x format as exactly four digits. -/
lemma pyHex04_length {n : ℕ} (h : n < 65536) : (pyHex04 n).length = 4 := by
  have hle : (hexDigits n).length ≤ 4 := hexDigits_length_le h
  simp only [pyHex04, String.length]
  simp only [List.length_append, List.length_replicate]
  omega

/-- C8: on the signed 16-bit range, `to_unsigned_hex` renders the
two's-complement bit pattern `n mod 65536` as exactly four lowercase hex
digits (adding 65536 to negative values), and in particular renders -1 as
"ffff" and -32768 as "8000". -/
theorem C8_to_unsigned_hex :
    (∀ n : ℤ, -32768 ≤ n → n ≤ 32767 →
      to_unsigned_hex n = pyHex04 (n % 65536).toNat ∧
      (to_unsigned_hex n).length = 4) ∧
    to_unsigned_hex (-1) = "ffff" ∧ to_unsigned_hex (-32768) = "8000" := by
  refine ⟨?_, by decide, by decide⟩
  intro n hlo hhi
  have harg : (if n < 0 then (2 ^ 16 + n).toNat else n.toNat) = (n % 65536).toNat := by
    split <;> omega
  constructor
  · unfold to_unsigned_hex
    rw [harg]
  · unfold to_unsigned_hex
    rw [harg]
    exact pyHex04_length (by omega)

/-- C8 witness: the rendering theorem applied at the concrete input -1. -/
theorem C8_to_unsigned_hex_witness :
    to_unsigned_hex (-1) = pyHex04 ((-1 : ℤ) % 65536).toNat ∧
    (to_unsigned_hex (-1)).length = 4 :=
  C8_to_unsigned_hex.1 (-1) (by norm_num) (by norm_num)

/-- Reading a mapped range at an in-range index. -/
lemma getD_map_range {β : Type*} (f : ℕ → β) (d : β) {i n : ℕ} (h : i < n) :
    ((List.range n).map f).getD i d = f i := by
  have hlen : i < ((List.range n).map f).length := by
    simpa using h
  rw [List.getD_eq_getElem _ _ hlen]
  simp

/-- The angle for index `i`, written in lowest terms. -/
lemma angle_eq (i : ℕ) : angle i = (i : ℝ) * π / 512 := by
  unfold angle
  ring

/-- The encoder sends real zero to fixed-point zero. -/
lemma to_fixed_point_zero : to_fixed_point (0 : ℝ) 7 = 0 :=
  to_fixed_point_eq_intCast 7 (by norm_num) (by norm_num) (by norm_num)

/-- The encoder sends real one to fixed-point 128. -/
lemma to_fixed_point_one : to_fixed_point (1 : ℝ) 7 = 128 :=
  to_fixed_point_eq_intCast 7 (by norm_num) (by norm_num) (by norm_num)

/-- The encoder sends real minus one to fixed-point -128. -/
lemma to_fixed_point_neg_one : to_fixed_point (-1 : ℝ) 7 = -128 :=
  to_fixed_point_eq_intCast 7 (by norm_num) (by norm_num) (by norm_num)

/-- Sine and cosine at index 0. -/
lemma sin_cos_entry_zero : sinEntry 0 = 0 ∧ cosEntry 0 = 128 := by
  have ha : angle 0 = 0 := by
    rw [angle_eq]
    norm_num
  constructor
  · rw [sinEntry, ha, Real.sin_zero]
    exact to_fixed_point_zero
  · rw [cosEntry, ha, Real.cos_zero]
    exact to_fixed_point_one

/-- Sine and cosine at index 256 (90 degrees). -/
lemma sin_cos_entry_256 : sinEntry 256 = 128 ∧ cosEntry 256 = 0 := by
  have ha : angle 256 = π / 2 := by
    rw [angle_eq]
    ring
  constructor
  · rw [sinEntry, ha, Real.sin_pi_div_two]
    exact to_fixed_point_one
  · rw [cosEntry, ha, Real.cos_pi_div_two]
    exact to_fixed_point_zero

/-- Sine and cosine at index 512 (180 degrees). -/
lemma sin_cos_entry_512 : sinEntry 512 = 0 ∧ cosEntry 512 = -128 := by
  have ha : angle 512 = π := by
    rw [angle_eq]
    ring
  constructor
  · rw [sinEntry, ha, Real.sin_pi]
    exact to_fixed_point_zero
  · rw [cosEntry, ha, Real.cos_pi]
    exact to_fixed_point_neg_one

/-- Sine and cosine at index 768 (270 degrees). -/
lemma sin_cos_entry_768 : sinEntry 768 = -128 ∧ cosEntry 768 = 0 := by
  have ha : angle 768 = π + π / 2 := by
    rw [angle_eq]
    ring
  have hsin : Real.sin (π + π / 2) = -1 := by
    rw [Real.sin_add]
    simp
  have hcos : Real.cos (π + π / 2) = 0 := by
    rw [Real.cos_add]
    simp
  constructor
  · rw [sinEntry, ha, hsin]
    exact to_fixed_point_neg_one
  · rw [cosEntry, ha, hcos]
    exact to_fixed_point_zero

/-- C1: the built table holds the spec's exact values at the four special
angle indices 0, 256, 512 and 768, for all four of sin, cos, tan, cot. -/
theorem C1_special_indices :
    (generate_trig_lut.1.getD 0 0 = 0 ∧ generate_trig_lut.2.1.getD 0 0 = 128 ∧
     generate_trig_lut.2.2.1.getD 0 0 = 0 ∧ generate_trig_lut.2.2.2.getD 0 0 = 32767) ∧
    (generate_trig_lut.1.getD 256 0 = 128 ∧ generate_trig_lut.2.1.getD 256 0 = 0 ∧
     generate_trig_lut.2.2.1.getD 256 0 = 32767 ∧ generate_trig_lut.2.2.2.getD 256 0 = 0) ∧
    (generate_trig_lut.1.getD 512 0 = 0 ∧ generate_trig_lut.2.1.getD 512 0 = -128 ∧
     generate_trig_lut.2.2.1.getD 512 0 = 0 ∧ generate_trig_lut.2.2.2.getD 512 0 = -32768) ∧
    (generate_trig_lut.1.getD 768 0 = -128 ∧ generate_trig_lut.2.1.getD 768 0 = 0 ∧
     generate_trig_lut.2.2.1.getD 768 0 = -32768 ∧ generate_trig_lut.2.2.2.getD 768 0 = 0) := by
  unfold generate_trig_lut
  rw [getD_map_range sinEntry 0 (by norm_num : (0:ℕ) < 1024),
      getD_map_range cosEntry 0 (by norm_num : (0:ℕ) < 1024),
      getD_map_range tanEntry 0 (by norm_num : (0:ℕ) < 1024),
      getD_map_range cotEntry 0 (by norm_num : (0:ℕ) < 1024),
      getD_map_range sinEntry 0 (by norm_num : (256:ℕ) < 1024),
      getD_map_range cosEntry 0 (by norm_num : (256:ℕ) < 1024),
      getD_map_range tanEntry 0 (by norm_num : (256:ℕ) < 1024),
      getD_map_range cotEntry 0 (by norm_num : (256:ℕ) < 1024),
      getD_map_range sinEntry 0 (by norm_num : (512:ℕ) < 1024),
      getD_map_range cosEntry 0 (by norm_num : (512:ℕ) < 1024),
      getD_map_range tanEntry 0 (by norm_num : (512:ℕ) < 1024),
      getD_map_range cotEntry 0 (by norm_num : (512:ℕ) < 1024),
      getD_map_range sinEntry 0 (by norm_num : (768:ℕ) < 1024),
      getD_map_range cosEntry 0 (by norm_num : (768:ℕ) < 1024),
      getD_map_range tanEntry 0 (by norm_num : (768:ℕ) < 1024),
      getD_map_range cotEntry 0 (by norm_num : (768:ℕ) < 1024)]
  refine ⟨⟨sin_cos_entry_zero.1, sin_cos_entry_zero.2, ?_, ?_⟩,
          ⟨sin_cos_entry_256.1, sin_cos_entry_256.2, ?_, ?_⟩,
          ⟨sin_cos_entry_512.1, sin_cos_entry_512.2, ?_, ?_⟩,
          ⟨sin_cos_entry_768.1, sin_cos_entry_768.2, ?_, ?_⟩⟩ <;>
    norm_num [tanEntry, cotEntry]

/-- C9: the four sequences returned by `generate_trig_lut` all have length
1024, and at every index `i` all four entries are computed from the same
angle `i × 2π/1024`. -/
theorem C9_parallel_tables :
    (generate_trig_lut.1.length = 1024 ∧ generate_trig_lut.2.1.length = 1024 ∧
     generate_trig_lut.2.2.1.length = 1024 ∧ generate_trig_lut.2.2.2.length = 1024) ∧
    ∀ i : ℕ, i < 1024 →
      generate_trig_lut.1.getD i 0 = to_fixed_point (Real.sin ((i : ℝ) * (2 * π / 1024))) 7 ∧
      generate_trig_lut.2.1.getD i 0 = to_fixed_point (Real.cos ((i : ℝ) * (2 * π / 1024))) 7 ∧
      generate_trig_lut.2.2.1.getD i 0 = tanEntry i ∧
      generate_trig_lut.2.2.2.getD i 0 = cotEntry i := by
  constructor
  · refine ⟨?_, ?_, ?_, ?_⟩ <;> simp [generate_trig_lut]
  · intro i hi
    unfold generate_trig_lut
    rw [getD_map_range sinEntry 0 hi, getD_map_range cosEntry 0 hi,
        getD_map_range tanEntry 0 hi, getD_map_range cotEntry 0 hi]
    exact ⟨rfl, rfl, rfl, rfl⟩

/-- C9 witness: the parallel-table theorem read at the concrete index 5. -/
theorem C9_parallel_tables_witness :
    generate_trig_lut.1.getD 5 0 = to_fixed_point (Real.sin ((5 : ℝ) * (2 * π / 1024))) 7 ∧
    generate_trig_lut.2.1.getD 5 0 = to_fixed_point (Real.cos ((5 : ℝ) * (2 * π / 1024))) 7 ∧
    generate_trig_lut.2.2.1.getD 5 0 = tanEntry 5 ∧
    generate_trig_lut.2.2.2.getD 5 0 = cotEntry 5 :=
  C9_parallel_tables.2 5 (by norm_num)

/-- When `|x| ≤ 1`, the scaled rounding stays inside [-128, 128] and the
encoder's clamp never fires. -/
lemma to_fixed_point_of_abs_le_one {x : ℝ} (h : |x| ≤ 1) :
    to_fixed_point x 7 = roundHalfEven (x * 2 ^ 7) ∧
    -128 ≤ roundHalfEven (x * 2 ^ 7) ∧ roundHalfEven (x * 2 ^ 7) ≤ 128 := by
  rw [abs_le] at h
  have hup : x * 2 ^ 7 ≤ ((128 : ℤ) : ℝ) := by
    push_cast
    nlinarith [h.2]
  have hlo : ((-128 : ℤ) : ℝ) ≤ x * 2 ^ 7 := by
    push_cast
    nlinarith [h.1]
  have h1 : roundHalfEven (x * 2 ^ 7) ≤ 128 := roundHalfEven_le_of_le hup
  have h2 : (-128 : ℤ) ≤ roundHalfEven (x * 2 ^ 7) := le_roundHalfEven_of_le hlo
  exact ⟨to_fixed_point_eq_of_no_clamp 7 (by omega) (by omega), h2, h1⟩

/-- C10: every sin and cos entry of the built table lies in [-128, 128],
and each such entry equals the unclamped rounded value, so the encoder's
saturation clamp never fires for sin or cos. -/
theorem C10_sin_cos_bounded (i : ℕ) (hi : i < 1024) :
    (-128 ≤ generate_trig_lut.1.getD i 0 ∧ generate_trig_lut.1.getD i 0 ≤ 128 ∧
     generate_trig_lut.1.getD i 0 = roundHalfEven (Real.sin (angle i) * 2 ^ 7)) ∧
    (-128 ≤ generate_trig_lut.2.1.getD i 0 ∧ generate_trig_lut.2.1.getD i 0 ≤ 128 ∧
     generate_trig_lut.2.1.getD i 0 = roundHalfEven (Real.cos (angle i) * 2 ^ 7)) := by
  unfold generate_trig_lut
  rw [getD_map_range sinEntry 0 hi, getD_map_range cosEntry 0 hi]
  have hs := to_fixed_point_of_abs_le_one (x := Real.sin (angle i))
    (abs_le.mpr ⟨Real.neg_one_le_sin _, Real.sin_le_one _⟩)
  have hc := to_fixed_point_of_abs_le_one (x := Real.cos (angle i))
    (abs_le.mpr ⟨Real.neg_one_le_cos _, Real.cos_le_one _⟩)
  unfold sinEntry cosEntry
  refine ⟨⟨?_, ?_, hs.1⟩, ?_, ?_, hc.1⟩
  · rw [hs.1]
    exact hs.2.1
  · rw [hs.1]
    exact hs.2.2
  · rw [hc.1]
    exact hc.2.1
  · rw [hc.1]
    exact hc.2.2

/-- C10 witness: the bound theorem read at the concrete index 0. -/
theorem C10_sin_cos_bounded_witness :
    (-128 ≤ generate_trig_lut.1.getD 0 0 ∧ generate_trig_lut.1.getD 0 0 ≤ 128 ∧
     generate_trig_lut.1.getD 0 0 = roundHalfEven (Real.sin (angle 0) * 2 ^ 7)) ∧
    (-128 ≤ generate_trig_lut.2.1.getD 0 0 ∧ generate_trig_lut.2.1.getD 0 0 ≤ 128 ∧
     generate_trig_lut.2.1.getD 0 0 = roundHalfEven (Real.cos (angle 0) * 2 ^ 7)) :=
  C10_sin_cos_bounded 0 (by norm_num)

/-- C6: away from the four special indices, the tan entry applies the
±255.0 pre-clamp around the encoder, and the cot entry handles a near-zero
tangent by the sign of cos and otherwise applies the same pre-clamp to
`1 / tan`. -/
theorem C6_tan_cot_policy (i : ℕ) (hi : i < 1024) (h0 : i ≠ 0) (h256 : i ≠ 256)
    (h512 : i ≠ 512) (h768 : i ≠ 768) :
    generate_trig_lut.2.2.1.getD i 0 =
      (if Real.tan (angle i) > 255 then 32767
       else if Real.tan (angle i) < -255 then -32768
       else to_fixed_point (Real.tan (angle i)) 7) ∧
    generate_trig_lut.2.2.2.getD i 0 =
      (if |Real.tan (angle i)| < 1 / 1000000 then
        (if Real.cos (angle i) > 0 then 32767 else -32768)
       else if 1 / Real.tan (angle i) > 255 then 32767
       else if 1 / Real.tan (angle i) < -255 then -32768
       else to_fixed_point (1 / Real.tan (angle i)) 7) := by
  unfold generate_trig_lut
  rw [getD_map_range tanEntry 0 hi, getD_map_range cotEntry 0 hi]
  constructor
  · unfold tanEntry
    rw [if_neg (by omega), if_neg (by omega)]
  · unfold cotEntry
    rw [if_neg (by omega), if_neg (by omega)]

/-- C6 witness: the tan/cot policy theorem read at the concrete index 1. -/
theorem C6_tan_cot_policy_witness :
    generate_trig_lut.2.2.1.getD 1 0 =
      (if Real.tan (angle 1) > 255 then 32767
       else if Real.tan (angle 1) < -255 then -32768
       else to_fixed_point (Real.tan (angle 1)) 7) ∧
    generate_trig_lut.2.2.2.getD 1 0 =
      (if |Real.tan (angle 1)| < 1 / 1000000 then
        (if Real.cos (angle 1) > 0 then 32767 else -32768)
       else if 1 / Real.tan (angle 1) > 255 then 32767
       else if 1 / Real.tan (angle 1) < -255 then -32768
       else to_fixed_point (1 / Real.tan (angle 1)) 7) :=
  C6_tan_cot_policy 1 (by norm_num) (by norm_num) (by norm_num) (by norm_num) (by norm_num)

/-- Reading a data line of the combined COE output by its index. -/
lemma write_combined_getD (s c t k : List ℤ) {i : ℕ} (h : i < s.length) :
    (write_combined_coe_file s c t k).getD (6 + i) "" =
      (if i = s.length - 1 then coeRecord s c t k i ++ ";"
       else coeRecord s c t k i ++ ",") := by
  unfold write_combined_coe_file
  rw [List.getD_append_right _ _ _ _ (by rw [show coeHeader.length = 6 from rfl]; omega)]
  rw [show coeHeader.length = 6 from rfl]
  rw [show 6 + i - 6 = i by omega]
  rw [getD_map_range _ "" h]

/-- C4 counterexample: at the concrete input tables [0], [1], [2], [3] the
single data line renders cot (value 3) as its fourth field, not a repeat of
cos (value 1) as the claimed order sin, cos, tan, cos would require. -/
theorem C4_counterexample :
    (write_combined_coe_file [0] [1] [2] [3]).getD 6 "" = "0000000100020003;" ∧
    (write_combined_coe_file [0] [1] [2] [3]).getD 6 "" ≠
      to_unsigned_hex 0 ++ to_unsigned_hex 1 ++ to_unsigned_hex 2 ++
      to_unsigned_hex 1 ++ ";" := by
  constructor
  · decide
  · decide

/-- C4 (amended): every data line is the concatenation of the four
4-hex-digit renderings of that index's entries in the order sin, cos, tan,
cot, followed by that line's terminator. -/
theorem C4_data_line (s c t k : List ℤ) (i : ℕ) (h : i < s.length) :
    (write_combined_coe_file s c t k).getD (6 + i) "" =
      to_unsigned_hex (s.getD i 0) ++ to_unsigned_hex (c.getD i 0) ++
      to_unsigned_hex (t.getD i 0) ++ to_unsigned_hex (k.getD i 0) ++
      (if i = s.length - 1 then ";" else ",") := by
  rw [write_combined_getD s c t k h]
  unfold coeRecord
  by_cases hc : i = s.length - 1
  · rw [if_pos hc, if_pos hc]
  · rw [if_neg hc, if_neg hc]

/-- C4 witness: the data-line theorem applied to the concrete tables
[0], [1], [2], [3] at index 0. -/
theorem C4_data_line_witness :
    (write_combined_coe_file [0] [1] [2] [3]).getD (6 + 0) "" =
      to_unsigned_hex (([0] : List ℤ).getD 0 0) ++
      to_unsigned_hex (([1] : List ℤ).getD 0 0) ++
      to_unsigned_hex (([2] : List ℤ).getD 0 0) ++
      to_unsigned_hex (([3] : List ℤ).getD 0 0) ++
      (if 0 = ([0] : List ℤ).length - 1 then ";" else ",") :=
  C4_data_line [0] [1] [2] [3] 0 (by norm_num)

/-- The sin table drives the serializer's loop; it has 1024 entries. -/
lemma sin_table_length : generate_trig_lut.1.length = 1024 := by
  simp [generate_trig_lut]

/-- The actual output file has 6 header lines plus 1024 data lines. -/
lemma coeFile_length_eq : coeFile.length = 1030 := by
  unfold coeFile write_combined_coe_file
  rw [List.length_append, List.length_map, List.length_range, sin_table_length,
      show coeHeader.length = 6 from rfl]

/-- C5 counterexample: the output file does not consist of 3 header lines
plus 1024 data lines; it has 1030 lines in all, not 1027. -/
theorem C5_counterexample : ¬(coeFile.length = 3 + 1024) := by
  rw [coeFile_length_eq]
  norm_num

/-- C5 (amended): the output file is exactly 6 header lines followed by
exactly 1024 data lines; every data line before the last ends with "," and
the final data line ends with ";". -/
theorem C5_file_structure :
    coeFile.take 6 = coeHeader ∧
    coeFile.length = 6 + 1024 ∧
    (∀ i : ℕ, i < 1023 → ∃ r : String, coeFile.getD (6 + i) "" = r ++ ",") ∧
    (∃ r : String, coeFile.getD (6 + 1023) "" = r ++ ";") := by
  refine ⟨?_, by rw [coeFile_length_eq], ?_, ?_⟩
  · unfold coeFile write_combined_coe_file
    rw [show (6 : ℕ) = coeHeader.length from rfl]
    exact List.take_left _ _
  · intro i hi
    unfold coeFile
    rw [write_combined_getD _ _ _ _ (by rw [sin_table_length]; omega)]
    rw [sin_table_length]
    rw [if_neg (by omega)]
    exact ⟨_, rfl⟩
  · unfold coeFile
    rw [write_combined_getD _ _ _ _ (by rw [sin_table_length]; omega)]
    rw [sin_table_length]
    rw [if_pos (by norm_num)]
    exact ⟨_, rfl⟩

/-- C5 witness: the file-structure theorem read at the first data line. -/
theorem C5_file_structure_witness :
    ∃ r : String, coeFile.getD (6 + 0) "" = r ++ "," :=
  C5_file_structure.2.2.1 0 (by norm_num)

